import Mathlib

/-!
Verification development for the streaming chat application
(`src/pages/index.tsx` frontend and the `/api/chat` backend handler).

The TypeScript source is shallowly embedded below:

* JS `Uint8Array` byte chunks are `List Nat` (each entry `< 256`);
* `new TextDecoder().decode(bytes)` is `utf8DecodeJs` — the WHATWG UTF-8
  decoder run in non-streaming mode (a *fresh* decoder per call, flushing a
  replacement character for a truncated sequence at end of input), which is
  exactly what the frontend does on every read;
* `chunk.split('\n\n')` is `splitFrames`;
* `JSON.parse` is `jsonParse`, a JSON parser over the `Json` type
  (numbers are kept as their source lexemes, which is irrelevant to every
  claim since all wire payloads are `content` strings);
* the stream-reading loop of `handleSubmit` is `processLines` /
  `processChunk` / `runConsumer`;
* the backend handler of the unnamed api file is `handler`;
* `renderMessage`'s regex loop over ``` fences is `extract`.
-/

/-! ### JS strings: whitespace and `String.prototype.trim` -/

/-- The WhiteSpace/LineTerminator set used by JS `String.prototype.trim`
(the claims only ever exercise ordinary spaces and newlines). -/
def isJsWs (c : Char) : Bool :=
  let n := c.toNat
  (0x9 ≤ n && n ≤ 0xD) || n = 0x20 || n = 0xA0 || n = 0x1680 ||
  (0x2000 ≤ n && n ≤ 0x200A) || n = 0x2028 || n = 0x2029 ||
  n = 0x202F || n = 0x205F || n = 0x3000 || n = 0xFEFF

/-- Drop leading JS whitespace. -/
def ltrimChars (l : List Char) : List Char := l.dropWhile isJsWs

/-- Drop trailing JS whitespace. -/
def rtrimChars (l : List Char) : List Char := (l.reverse.dropWhile isJsWs).reverse

/-- Model of JS `s.trim()`. -/
def jsTrim (s : String) : String := String.mk (rtrimChars (ltrimChars s.data))

/-! ### `TextEncoder` / `TextDecoder` models -/

/-- UTF-8 encoding of one character (model of the bytes the network carries). -/
def utf8EncodeChar (c : Char) : List Nat :=
  let n := c.toNat
  if n < 0x80 then [n]
  else if n < 0x800 then [0xC0 + n / 64, 0x80 + n % 64]
  else if n < 0x10000 then [0xE0 + n / 4096, 0x80 + (n / 64) % 64, 0x80 + n % 64]
  else [0xF0 + n / 262144, 0x80 + (n / 4096) % 64, 0x80 + (n / 64) % 64, 0x80 + n % 64]

/-- UTF-8 encoding of a string. -/
def utf8Encode (s : String) : List Nat :=
  s.data.foldr (fun c acc => utf8EncodeChar c ++ acc) []

/-- U+FFFD, the replacement character emitted by `TextDecoder` on error. -/
def replChar : Char := Char.ofNat 0xFFFD

/-- WHATWG UTF-8 decode loop (state: code point, bytes needed, bytes seen,
lower boundary, upper boundary).  An out-of-range continuation byte emits
U+FFFD and reprocesses the byte; hence the fuel, which `2*n+1` always
suffices for.  End of input with an unfinished sequence flushes one U+FFFD —
this is `TextDecoder.decode` *without* `\x7b stream: true \x7d`, i.e. what
`new TextDecoder().decode(value)` does on every chunk of `handleSubmit`. -/
def utf8DecodeLoop : Nat → List Nat → Nat → Nat → Nat → Nat → Nat → List Char
  | 0, _, _, _, _, _, _ => []
  | _ + 1, [], _, needed, _, _, _ => if needed ≠ 0 then [replChar] else []
  | fuel + 1, b :: bs, cp, needed, seen, lower, upper =>
    if needed = 0 then
      if b ≤ 0x7F then Char.ofNat b :: utf8DecodeLoop fuel bs 0 0 0 0x80 0xBF
      else if 0xC2 ≤ b && b ≤ 0xDF then utf8DecodeLoop fuel bs (b - 0xC0) 1 0 0x80 0xBF
      else if 0xE0 ≤ b && b ≤ 0xEF then
        utf8DecodeLoop fuel bs (b - 0xE0) 2 0
          (if b = 0xE0 then 0xA0 else 0x80) (if b = 0xED then 0x9F else 0xBF)
      else if 0xF0 ≤ b && b ≤ 0xF4 then
        utf8DecodeLoop fuel bs (b - 0xF0) 3 0
          (if b = 0xF0 then 0x90 else 0x80) (if b = 0xF4 then 0x8F else 0xBF)
      else replChar :: utf8DecodeLoop fuel bs 0 0 0 0x80 0xBF
    else
      if lower ≤ b && b ≤ upper then
        let cp' := cp * 64 + (b - 0x80)
        if seen + 1 = needed then Char.ofNat cp' :: utf8DecodeLoop fuel bs 0 0 0 0x80 0xBF
        else utf8DecodeLoop fuel bs cp' needed (seen + 1) 0x80 0xBF
      else replChar :: utf8DecodeLoop fuel (b :: bs) 0 0 0 0x80 0xBF

/-- Model of `new TextDecoder().decode(bytes)`: a fresh, non-streaming
decode of exactly these bytes. -/
def utf8DecodeJs (bs : List Nat) : List Char :=
  utf8DecodeLoop (2 * bs.length + 1) bs 0 0 0 0x80 0xBF

/-! ### `chunk.split('\n\n')` -/

/-- Model of JS `chunk.split('\n\n')`: split at each leftmost,
non-overlapping occurrence of the blank-line delimiter. -/
def splitFrames : List Char → List Char → List (List Char)
  | [], acc => [acc.reverse]
  | '\n' :: '\n' :: cs, acc => acc.reverse :: splitFrames cs []
  | c :: cs, acc => splitFrames cs (c :: acc)

/-! ### JSON: values, `JSON.parse`, `JSON.stringify(\x7b content \x7d)` -/

/-- JSON values.  Numbers keep their source lexeme: no claim ever touches a
numeric payload, and this avoids modelling JS floating point. -/
inductive Json where
  | null : Json
  | bool (b : Bool) : Json
  | num (lexeme : String) : Json
  | str (s : String) : Json
  | arr (elems : List Json) : Json
  | obj (fields : List (String × Json)) : Json

/-- The character `\x7b`. -/
def lbrace : Char := Char.ofNat 123

/-- The character `\x7d`. -/
def rbrace : Char := Char.ofNat 125

/-- JSON insignificant whitespace. -/
def isJsonWs (c : Char) : Bool := c = ' ' || c = '\t' || c = '\n' || c = '\r'

/-- Skip JSON whitespace. -/
def skipWs (l : List Char) : List Char := l.dropWhile isJsonWs

/-- Hexadecimal digit value (`0-9`, `a-f`, `A-F`). -/
def hexVal (c : Char) : Option Nat :=
  let n := c.toNat
  if 0x30 ≤ n && n ≤ 0x39 then some (n - 0x30)
  else if 0x61 ≤ n && n ≤ 0x66 then some (n - 0x57)
  else if 0x41 ≤ n && n ≤ 0x46 then some (n - 0x37)
  else none

/-- Parse exactly four hex digits. -/
def parseHex4 : List Char → Option (Nat × List Char)
  | a :: b :: c :: d :: rest =>
    match hexVal a, hexVal b, hexVal c, hexVal d with
    | some x, some y, some z, some w => some (x * 0x1000 + y * 0x100 + z * 0x10 + w, rest)
    | _, _, _, _ => none
  | _ => none

/-- Is `n` a UTF-16 high surrogate? -/
def isHighSurrogate (n : Nat) : Bool := 0xD800 ≤ n && n ≤ 0xDBFF

/-- Is `n` a UTF-16 low surrogate? -/
def isLowSurrogate (n : Nat) : Bool := 0xDC00 ≤ n && n ≤ 0xDFFF

/-- Body of a JSON string after the opening quote; returns the decoded
characters and the input after the closing quote.  `\uXXXX` escapes combine
surrogate pairs as `JSON.parse` does (a lone surrogate cannot inhabit a Lean
`Char` and falls back to U+0000; no claim exercises one). -/
def parseStrBody : Nat → List Char → Option (List Char × List Char)
  | 0, _ => none
  | _ + 1, [] => none
  | fuel + 1, c :: cs =>
    if c = '"' then some ([], cs)
    else if c = '\\' then
      match cs with
      | [] => none
      | e :: cs2 =>
        let push (ch : Char) (rest : List Char) : Option (List Char × List Char) :=
          match parseStrBody fuel rest with
          | some (s, r) => some (ch :: s, r)
          | none => none
        if e = '"' then push '"' cs2
        else if e = '\\' then push '\\' cs2
        else if e = '/' then push '/' cs2
        else if e = 'b' then push (Char.ofNat 8) cs2
        else if e = 'f' then push (Char.ofNat 12) cs2
        else if e = 'n' then push '\n' cs2
        else if e = 'r' then push '\r' cs2
        else if e = 't' then push '\t' cs2
        else if e = 'u' then
          match parseHex4 cs2 with
          | none => none
          | some (n, cs3) =>
            if isHighSurrogate n then
              match cs3 with
              | '\\' :: 'u' :: cs4 =>
                match parseHex4 cs4 with
                | some (m, cs5) =>
                  if isLowSurrogate m then
                    push (Char.ofNat (0x10000 + (n - 0xD800) * 0x400 + (m - 0xDC00))) cs5
                  else push (Char.ofNat 0) cs3
                | none => push (Char.ofNat 0) cs3
              | _ => push (Char.ofNat 0) cs3
            else push (Char.ofNat n) cs3
        else none
    else if c.toNat < 0x20 then none
    else
      match parseStrBody fuel cs with
      | some (s, r) => some (c :: s, r)
      | none => none

/-- Is `c` a decimal digit? -/
def isDigitCh (c : Char) : Bool := '0' ≤ c && c ≤ '9'

/-- Parse a JSON number per the strict JSON grammar, keeping the lexeme. -/
def parseNum (l : List Char) : Option (String × List Char) :=
  let (sign, l1) := match l with
    | '-' :: r => (['-'], r)
    | r => (([] : List Char), r)
  match l1 with
  | [] => none
  | c :: _ =>
    if ¬ isDigitCh c then none
    else
      let intPart := l1.takeWhile isDigitCh
      let l2 := l1.dropWhile isDigitCh
      if intPart.length > 1 && intPart.headD '0' = '0' then none
      else
        let (fracPart, l3) :=
          match l2 with
          | '.' :: r =>
            let ds := r.takeWhile isDigitCh
            if ds.isEmpty then ([], '.' :: r) else ('.' :: ds, r.dropWhile isDigitCh)
          | r => (([] : List Char), r)
        match l2, fracPart with
        | '.' :: _, [] => none
        | _, _ =>
          let (expPart, l4) :=
            match l3 with
            | e :: r =>
              if e = 'e' || e = 'E' then
                let (es, r2) := match r with
                  | s :: r3 => if s = '+' || s = '-' then ([e, s], r3) else ([e], r)
                  | [] => ([e], r)
                let ds := r2.takeWhile isDigitCh
                if ds.isEmpty then (([] : List Char), l3)
                else (es ++ ds, r2.dropWhile isDigitCh)
              else ([], l3)
            | [] => ([], l3)
          match l3, expPart with
          | e :: _, [] =>
            if e = 'e' || e = 'E' then none
            else some (String.mk (sign ++ intPart ++ fracPart), l3)
          | _, _ => some (String.mk (sign ++ intPart ++ fracPart ++ expPart), l4)

/-- Does `l` begin with the given keyword? Returns the remainder. -/
def eatKeyword : List Char → List Char → Option (List Char)
  | [], l => some l
  | k :: ks, c :: cs => if c = k then eatKeyword ks cs else none
  | _ :: _, [] => none

mutual

/-- Parse one JSON value (leading whitespace allowed). -/
def parseVal : Nat → List Char → Option (Json × List Char)
  | 0, _ => none
  | fuel + 1, l =>
    match skipWs l with
    | [] => none
    | c :: cs =>
      if c = '"' then
        match parseStrBody (fuel + 1) cs with
        | some (s, r) => some (.str (String.mk s), r)
        | none => none
      else if c = 't' then (eatKeyword "rue".data cs).map (fun r => (.bool true, r))
      else if c = 'f' then (eatKeyword "alse".data cs).map (fun r => (.bool false, r))
      else if c = 'n' then (eatKeyword "ull".data cs).map (fun r => (.null, r))
      else if c = '[' then
        match skipWs cs with
        | ']' :: r => some (.arr [], r)
        | r => match parseElems fuel r with
               | some (xs, rest) => some (.arr xs, rest)
               | none => none
      else if c = lbrace then
        match skipWs cs with
        | d :: r =>
          if d = rbrace then some (.obj [], r)
          else match parseMembers fuel (d :: r) with
               | some (fs, rest) => some (.obj fs, rest)
               | none => none
        | [] => none
      else
        (parseNum (c :: cs)).map (fun (lex, r) => (.num lex, r))

/-- Parse the (nonempty) element list of an array, up to and including `]`. -/
def parseElems : Nat → List Char → Option (List Json × List Char)
  | 0, _ => none
  | fuel + 1, l =>
    match parseVal fuel l with
    | none => none
    | some (v, r) =>
      match skipWs r with
      | ',' :: r2 =>
        match parseElems fuel r2 with
        | some (xs, rest) => some (v :: xs, rest)
        | none => none
      | ']' :: r2 => some ([v], r2)
      | _ => none

/-- Parse the (nonempty) member list of an object, up to and including the
closing brace. -/
def parseMembers : Nat → List Char → Option (List (String × Json) × List Char)
  | 0, _ => none
  | fuel + 1, l =>
    match skipWs l with
    | '"' :: cs =>
      match parseStrBody fuel cs with
      | none => none
      | some (k, r) =>
        match skipWs r with
        | ':' :: r2 =>
          match parseVal fuel r2 with
          | none => none
          | some (v, r3) =>
            match skipWs r3 with
            | ',' :: r4 =>
              match parseMembers fuel r4 with
              | some (fs, rest) => some ((String.mk k, v) :: fs, rest)
              | none => none
            | d :: r4 =>
              if d = rbrace then some ([(String.mk k, v)], r4) else none
            | [] => none
        | _ => none
    | _ => none

end

/-- Model of `JSON.parse`: parse one value and require only whitespace to
remain; anything else throws (is `none`). -/
def jsonParse (l : List Char) : Option Json :=
  match parseVal (2 * l.length + 2) l with
  | some (v, rest) => if (skipWs rest).isEmpty then some v else none
  | none => none

/-- JS property lookup `v.k` for a parsed JSON value: `none` is JS
`undefined`.  `JSON.parse` keeps the last of duplicate keys. -/
def jsGetField (v : Json) (key : String) : Option Json :=
  match v with
  | .obj fields => fields.foldl (fun acc (kv : String × Json) =>
      if kv.1 = key then some kv.2 else acc) none
  | _ => none

mutual

/-- JS string coercion of a value (as in `accumulatedContent += content`):
strings verbatim, `null`/booleans by name, numbers by their lexeme, arrays
via `Array.prototype.toString`, objects as `[object Object]`. -/
def jsToStr : Json → String
  | .null => "null"
  | .bool true => "true"
  | .bool false => "false"
  | .num lex => lex
  | .str s => s
  | .arr xs => jsJoinParts xs
  | .obj _ => "[object Object]"

/-- `Array.prototype.join(',')`: `null` elements become empty strings. -/
def jsJoinParts : List Json → String
  | [] => ""
  | [x] => jsElemStr x
  | x :: xs => jsElemStr x ++ "," ++ jsJoinParts xs

/-- One array element under `join`. -/
def jsElemStr : Json → String
  | .null => ""
  | x => jsToStr x

end

/-- JS coercion of a possibly-`undefined` value appended to a string
(`undefined` prints as the word `undefined`; a string is verbatim; the
other cases follow `jsToStr`). -/
def jsCoerceToString : Option Json → String
  | none => "undefined"
  | some .null => "null"
  | some (.bool true) => "true"
  | some (.bool false) => "false"
  | some (.num lex) => lex
  | some (.str s) => s
  | some (.arr xs) => jsJoinParts xs
  | some (.obj _) => "[object Object]"

/-- Lower-case hex digit. -/
def hexDigit (n : Nat) : Char :=
  if n < 10 then Char.ofNat ('0'.toNat + n) else Char.ofNat ('a'.toNat + n - 10)

/-- `JSON.stringify` escaping of one character. -/
def jsonEscapeChar (c : Char) : List Char :=
  if c = '"' then ['\\', '"']
  else if c = '\\' then ['\\', '\\']
  else if c = '\n' then ['\\', 'n']
  else if c = '\r' then ['\\', 'r']
  else if c = '\t' then ['\\', 't']
  else if c.toNat = 8 then ['\\', 'b']
  else if c.toNat = 12 then ['\\', 'f']
  else if c.toNat < 0x20 then
    ['\\', 'u', '0', '0', hexDigit (c.toNat / 16), hexDigit (c.toNat % 16)]
  else [c]

/-- `JSON.stringify` of a string value. -/
def jsonQuote (s : String) : String :=
  String.mk ('"' :: s.data.foldr (fun c acc => jsonEscapeChar c ++ acc) ['"'])

/-- `JSON.stringify(\x7b content \x7d)` as the backend builds each SSE
payload. -/
def stringifyContentObj (s : String) : String :=
  String.mk [lbrace] ++ "\"content\":" ++ jsonQuote s ++ String.mk [rbrace]

/-! ### The Stream Consumer (`handleSubmit` in `src/pages/index.tsx`) -/

/-- Message roles (`'user' | 'assistant'`). -/
inductive Role where
  | user : Role
  | assistant : Role
deriving DecidableEq

/-- The `Message` interface of the frontend. -/
structure ChatMessage where
  role : Role
  content : String
deriving DecidableEq

/-- The mutable state touched by `handleSubmit`'s read loop: the
`messages` history, the `isTyping` flag, the `currentTypingMessage`
display buffer, and the local `accumulatedContent` variable. -/
structure ConsumerState where
  messages : List ChatMessage
  isTyping : Bool
  currentTypingMessage : String
  accumulatedContent : String
deriving DecidableEq

/-- State at entry of the read loop: `setIsTyping(true)` has run and
`accumulatedContent` starts empty (the history is taken to be empty;
every theorem below is stated relative to an arbitrary or explicit
initial history). -/
def consumerInit : ConsumerState :=
  { messages := [], isTyping := true, currentTypingMessage := "", accumulatedContent := "" }

/-- One non-sentinel `data: ` frame body: `const \x7b content \x7d =
JSON.parse(data)` followed by `accumulatedContent += content` and
`setCurrentTypingMessage(accumulatedContent)`.  A `JSON.parse` throw — and
the `TypeError` of destructuring a parsed `null` — lands in the `catch`
that only logs, leaving the state unchanged. -/
def jsonContentStep (st : ConsumerState) (data : List Char) : ConsumerState :=
  match jsonParse data with
  | none => st
  | some .null => st
  | some v =>
    let s := st.accumulatedContent ++ jsCoerceToString (jsGetField v "content")
    { st with accumulatedContent := s, currentTypingMessage := s }

/-- The `for (const line of lines)` loop.  On the `[DONE]` sentinel it
stops the typing indicator, appends the accumulator to the history, clears
the *display* buffer, and `break`s — which exits only this inner loop, so
the remaining lines of the current chunk are dropped but the outer read
loop continues. -/
def processLines (st : ConsumerState) : List (List Char) → ConsumerState
  | [] => st
  | line :: rest =>
    if "data: ".data.isPrefixOf line then
      if line.drop 6 = "[DONE]".data then
        { st with
          isTyping := false
          messages := st.messages ++ [⟨Role.assistant, st.accumulatedContent⟩]
          currentTypingMessage := "" }
      else processLines (jsonContentStep st (line.drop 6)) rest
    else processLines st rest

/-- One iteration of the `while (true)` read loop on a byte chunk:
`new TextDecoder().decode(value)` then `chunk.split('\n\n')` then the
line loop. -/
def processChunk (st : ConsumerState) (bytes : List Nat) : ConsumerState :=
  processLines st (splitFrames (utf8DecodeJs bytes) [])

/-- The whole read loop over the sequence of chunks the reader yields
before reporting `done`. -/
def runConsumer (st : ConsumerState) (chunks : List (List Nat)) : ConsumerState :=
  chunks.foldl processChunk st

/-- The `catch` block of `handleSubmit`: stop typing and append a
synthetic assistant error bubble. -/
def handleError (st : ConsumerState) (errMsg : String) : ConsumerState :=
  { st with
    isTyping := false
    messages := st.messages ++ [⟨Role.assistant, "错误: " ++ errMsg⟩] }

/-- Does a decoded line trigger the sentinel branch? -/
def isDoneLine (line : List Char) : Bool :=
  "data: ".data.isPrefixOf line && line.drop 6 = "[DONE]".data

/-- Does a byte chunk contain a sentinel line once decoded and split? -/
def chunkHasDone (bytes : List Nat) : Bool :=
  (splitFrames (utf8DecodeJs bytes) []).any isDoneLine

/-! ### The Transport Relay (`handler` in the api route) -/

/-- `delta` of a provider stream chunk; `content` is `none` for a missing
or `null` field. -/
structure ProviderDelta where
  content : Option String

/-- One element of `chunk.choices`. -/
structure ProviderChoice where
  delta : ProviderDelta

/-- One chunk of the provider completion stream. -/
structure ProviderChunk where
  choices : List ProviderChoice

/-- `chunk.choices[0]?.delta?.content` resolved through optional
chaining. -/
def contentOf (ch : ProviderChunk) : Option String :=
  match ch.choices with
  | [] => none
  | c :: _ => c.delta.content

/-- `data: $\x7bJSON.stringify(\x7bcontent\x7d)\x7d\n\n` for one provider
chunk, with `|| ''` substituting the empty string when the field is
missing (and leaving `''` itself unchanged). -/
def frameFor (ch : ProviderChunk) : String :=
  "data: " ++ stringifyContentObj ((contentOf ch).getD "") ++ "\n\n"

/-- The `for await (const chunk of stream)` loop: one `res.write` per
chunk, in order. -/
def relayContentFrames (provider : List ProviderChunk) : List String :=
  provider.foldl (fun acc ch => acc ++ [frameFor ch]) []

/-- Everything the relay writes to the response body: one frame per
provider chunk, then the sentinel frame. -/
def relayFrames (provider : List ProviderChunk) : List String :=
  relayContentFrames provider ++ ["data: [DONE]\n\n"]

/-- Is a number lexeme a JS falsy zero? -/
def numIsZero (lex : String) : Bool :=
  let l := match lex.data with
    | '-' :: r => r
    | r => r
  (l.takeWhile (fun c => c ≠ 'e' && c ≠ 'E')).all (fun c => c = '0' || c = '.')

/-- JS truthiness of a parsed JSON value. -/
def jsTruthy : Json → Bool
  | .null => false
  | .bool b => b
  | .str s => !(s = "")
  | .num lex => !(numIsZero lex)
  | .arr _ => true
  | .obj _ => true

/-- The api route's filter predicate:
`msg && typeof msg.content === 'string' && msg.content.trim() !== ''`. -/
def validEntry (m : Json) : Bool :=
  jsTruthy m &&
    (match jsGetField m "content" with
     | some (.str s) => !(jsTrim s = "")
     | _ => false)

/-- The fixed system instruction the relay prepends (the template literal
`systemPrompt` of the api route, verbatim). -/
def systemPrompt : String :=
  "\n你是一个专业的前端AI编程助手，专门帮助用户实现各种前端开发需求。你的主要特点包括：\n\n1. 前端技术栈：\n   - 精通 HTML5, CSS3, JavaScript (ES6+), 和 TypeScript\n   - 专注于 React 生态系统，包括 Next.js, React Hooks, 和 React Context\n   - 熟练使用 Tailwind CSS 进行快速样式开发\n\n2. 代码生成和标记：\n   - 生成代码时，请明确指出代码块的语言类型\n   - 使用以下格式来标记代码块：\n     ```language\n     // 代码内容\n     ```\n   - 常用的语言标记包括：html, css, javascript, typescript, jsx, tsx\n\n3. 问题解决和最佳实践：\n   - 提供清晰、简洁、易于理解的代码解决方案\n   - 遵循前端开发的最佳实践和设计模式\n   - 注重代码的可读性、可维护性和可扩展性\n\n4. 解释能力：\n   - 在提供代码示例时，附带简洁的解释\n   - 能够清晰地解释复杂的前端概念\n   - 提供有关前端架构和组件设计的建议\n\n5. Tailwind CSS 集成：\n   - 优先使用 Tailwind CSS 类来实现样式，而不是编写原生 CSS\n   - 展示如何有效地组合 Tailwind 类来实现复杂的布局和设计\n\n6. 图表支持：\n   - 使用 Mermaid 语法创建架构图、流程图、时序图等\n   - 使用以下格式来标记 Mermaid 图表：\n     ```mermaid\n     // Mermaid 图表代码\n     ```\n\n7. 适应性：\n   - 根据用户的技能水平调整回答的复杂度\n   - 处理从简单到高级的各种前端开发任务\n\n请根据用户的需求提供准确、有用的前端开发建议和代码示例。确保所有代码示例都使用适当的语言标记，并且优先考虑 React 和 Tailwind CSS 的实现。如果需要更多信息来更好地回答问题，请随时询问用户。\n"

/-- The `\x7b role: 'system', content: systemPrompt \x7d` message object. -/
def systemMessageJson : Json :=
  Json.obj [("role", Json.str "system"), ("content", Json.str systemPrompt)]

/-- Outcome of one api-route invocation.  `errorResponse status message`
models `res.status(status).json(\x7b message \x7d)` — in particular no
request to the completion provider was made on that path, which is why
only `streamed` carries provider data.  `streamed outbound frames` models
a committed SSE response: `outbound` is the `messages` array sent to the
provider, `frames` the SSE frames written to the client.  `crashed`
models an exception escaping the handler itself: the destructuring
`const \x7b messages \x7d = req.body` sits *outside* the `try`, so a
request whose JSON body is the literal `null` throws a `TypeError` that
no code of the route catches, and the framework answers with its generic
unstructured 500 — again with no provider call, hence no provider data
on this constructor either. -/
inductive RelayResult where
  | errorResponse (status : Nat) (message : String)
  | streamed (outbound : List Json) (frames : List String)
  | crashed : RelayResult

/-- Is the parsed request body the JSON value `null`?  (`req.body` is
`null` exactly when the client posts the JSON text `null`; destructuring
it throws.) -/
def isNullJson : Json → Bool
  | Json.null => true
  | _ => false

/-- The api-route `handler`, with the provider's streamed chunks supplied
as a parameter (the model call is the only external effect).  Mirrors the
source: the method gate; then `const \x7b messages \x7d = req.body`,
which throws uncaught on a `null` body (`crashed`) and yields `undefined`
on any other non-object body; then, inside the `try`,
`Array.isArray(messages) && messages.length > 0`, the blank-content
filter, the system-prompt prepend, and one SSE frame per provider chunk
plus the sentinel. -/
def handler (method : String) (body : Json) (provider : List ProviderChunk) : RelayResult :=
  if method ≠ "POST" then .errorResponse 405 "只允许POST请求"
  else if isNullJson body then .crashed
  else
    match jsGetField body "messages" with
    | some (Json.arr msgs) =>
      if msgs.isEmpty then .errorResponse 500 "服务器错误: 消息数组无效或为空"
      else
        let validMessages := msgs.filter validEntry
        if validMessages.isEmpty then .errorResponse 500 "服务器错误: 没有有效的消息内容"
        else .streamed (systemMessageJson :: validMessages) (relayFrames provider)
    | _ => .errorResponse 500 "服务器错误: 消息数组无效或为空"

/-- Does the request body hold a non-empty `messages` array?  (The check
`!Array.isArray(messages) || messages.length === 0` of the source.) -/
def messagesNonEmptyArray (body : Json) : Bool :=
  match jsGetField body "messages" with
  | some (Json.arr msgs) => !msgs.isEmpty
  | _ => false

/-! ### The Code-Block Extractor (`renderMessage`) -/

/-- A rendered segment: a markdown text span or a clickable code-block
placeholder (the spec's `TextSpan` / `CodeBlockRef`). -/
inductive Segment where
  | text (s : String) : Segment
  | code (language : String) (content : String) : Segment
deriving DecidableEq

/-- `\w` of the fence regex. -/
def isWordChar (c : Char) : Bool :=
  (decide ('a' ≤ c) && decide (c ≤ 'z')) || (decide ('A' ≤ c) && decide (c ≤ 'Z')) ||
  (decide ('0' ≤ c) && decide (c ≤ '9')) || c = '_'

/-- Lazy body match: the shortest prefix whose end is followed by a
closing triple backtick; returns the body and the input after the
closing fence. -/
def findClose : List Char → Option (List Char × List Char)
  | [] => none
  | c :: cs =>
    if "```".data.isPrefixOf (c :: cs) then some ([], (c :: cs).drop 3)
    else
      match findClose cs with
      | some (body, rest) => some (c :: body, rest)
      | none => none

/-- Try the regex ```` /```(\w+)?\n([\s\S]*?)```/ ```` anchored at the
start of `cs`: triple backtick, a maximal (possibly absent) word run, a
mandatory newline, then the lazily matched body.  Returns the optional
language run, the raw body, and the input after the match. -/
def matchFenceAt (cs : List Char) : Option (Option (List Char) × List Char × List Char) :=
  if "```".data.isPrefixOf cs then
    match (cs.drop 3).dropWhile isWordChar with
    | '\n' :: bodyStart =>
      match findClose bodyStart with
      | some (body, rest) =>
        some ((if ((cs.drop 3).takeWhile isWordChar).isEmpty then none
               else some ((cs.drop 3).takeWhile isWordChar)), body, rest)
      | none => none
    | _ => none
  else none

/-- Emit the pending plain text, if any. -/
def flushText (cs : List Char) : List Segment :=
  if cs.isEmpty then [] else [Segment.text (String.mk cs)]

/-- The `while ((match = codeBlockRegex.exec(content)) !== null)` loop:
text before each match becomes a `text` segment, each match a `code`
segment with `match[1] || 'plaintext'` and `match[2].trim()`, and the
tail after the last match a final `text` segment.  `acc` holds the
pending plain text (reversed); one unit of fuel is spent per scanned
character, so `length + 1` suffices. -/
def scanSegs : Nat → List Char → List Char → List Segment
  | 0, acc, cs => flushText (acc.reverse ++ cs)
  | _ + 1, acc, [] => flushText acc.reverse
  | fuel + 1, acc, c :: cs =>
    match matchFenceAt (c :: cs) with
    | some (run, body, rest) =>
      flushText acc.reverse ++
        Segment.code (match run with | none => "plaintext" | some r => String.mk r)
          (jsTrim (String.mk body)) :: scanSegs fuel [] rest
    | none => scanSegs fuel (c :: acc) cs

/-- The segment sequence `renderMessage` produces for a content string. -/
def extract (content : String) : List Segment :=
  scanSegs (content.data.length + 1) [] content.data

/-- Is there any fence match anywhere in `cs`? -/
def hasFence : List Char → Bool
  | [] => false
  | c :: cs => (matchFenceAt (c :: cs)).isSome || hasFence cs

/-! ### Helper lemmas -/

theorem dropWhile_head_false {α : Type} (p : α → Bool) :
    ∀ (l : List α) (a : α) (t : List α), l.dropWhile p = a :: t → p a = false := by
  intro l
  induction l with
  | nil => intro a t h; simp [List.dropWhile] at h
  | cons x xs ih =>
    intro a t h
    rw [List.dropWhile_cons] at h
    by_cases hx : p x = true
    · rw [if_pos hx] at h; exact ih a t h
    · rw [if_neg hx] at h
      cases h
      exact Bool.eq_false_iff.mpr hx

theorem dropWhile_idem {α : Type} (p : α → Bool) (l : List α) :
    (l.dropWhile p).dropWhile p = l.dropWhile p := by
  cases h : l.dropWhile p with
  | nil => simp
  | cons a t =>
    rw [List.dropWhile_cons, if_neg]
    rw [dropWhile_head_false p l a t h]
    simp

theorem length_dropWhile_le {α : Type} (p : α → Bool) (l : List α) :
    (l.dropWhile p).length ≤ l.length := by
  induction l with
  | nil => simp
  | cons x xs ih =>
    rw [List.dropWhile_cons]
    by_cases hx : p x = true
    · rw [if_pos hx]
      exact Nat.le_trans ih (Nat.le_succ _)
    · rw [if_neg hx]

theorem rtrimChars_decomp (l : List Char) :
    l = rtrimChars l ++ (l.reverse.takeWhile isJsWs).reverse := by
  conv_lhs => rw [← l.reverse_reverse,
    ← List.takeWhile_append_dropWhile (p := isJsWs) (l := l.reverse)]
  rw [List.reverse_append]
  rfl

theorem rtrimChars_keeps_ltrimmed (l : List Char) (h : l.dropWhile isJsWs = l) :
    (rtrimChars l).dropWhile isJsWs = rtrimChars l := by
  cases hr : rtrimChars l with
  | nil => simp
  | cons a t =>
    have hl : l = a :: (t ++ (l.reverse.takeWhile isJsWs).reverse) := by
      conv_lhs => rw [rtrimChars_decomp l]
      rw [hr]; rfl
    have ha : isJsWs a = false := by
      by_contra hpa
      rw [Bool.not_eq_false] at hpa
      rw [hl, List.dropWhile_cons, if_pos hpa] at h
      have hle := length_dropWhile_le isJsWs (t ++ (l.reverse.takeWhile isJsWs).reverse)
      rw [h] at hle
      simp at hle
    rw [List.dropWhile_cons, if_neg (by rw [ha]; simp)]

theorem rtrimChars_idem (l : List Char) : rtrimChars (rtrimChars l) = rtrimChars l := by
  show ((rtrimChars l).reverse.dropWhile isJsWs).reverse = rtrimChars l
  rw [show (rtrimChars l).reverse = l.reverse.dropWhile isJsWs from List.reverse_reverse _]
  rw [dropWhile_idem]
  rfl

theorem jsTrim_idem (s : String) : jsTrim (jsTrim s) = jsTrim s := by
  show String.mk (rtrimChars (ltrimChars (rtrimChars (ltrimChars s.data))))
      = String.mk (rtrimChars (ltrimChars s.data))
  have h1 : ltrimChars (rtrimChars (ltrimChars s.data)) = rtrimChars (ltrimChars s.data) :=
    rtrimChars_keeps_ltrimmed _ (dropWhile_idem isJsWs s.data)
  rw [h1, rtrimChars_idem]

theorem code_not_mem_flushText (cs : List Char) (l c : String) :
    Segment.code l c ∉ flushText cs := by
  intro h
  unfold flushText at h
  by_cases he : cs.isEmpty = true
  · rw [if_pos he] at h; exact absurd h (List.not_mem_nil _)
  · rw [if_neg he] at h
    rcases List.mem_singleton.mp h with h'
    exact Segment.noConfusion h'

theorem matchFenceAt_lang_ne_nil (cs : List Char) (r body rest : List Char)
    (h : matchFenceAt cs = some (some r, body, rest)) : r ≠ [] := by
  unfold matchFenceAt at h
  by_cases hp : ("```".data.isPrefixOf cs) = true
  · rw [if_pos hp] at h
    split at h
    · split at h
      · simp only [Option.some.injEq, Prod.mk.injEq] at h
        obtain ⟨h1, _, _⟩ := h
        split at h1
        · exact absurd h1 (by simp)
        · rename_i hrun
          rw [Option.some.injEq] at h1
          rw [← h1]
          intro hnil
          rw [hnil] at hrun
          simp at hrun
      · exact absurd h (by simp)
    · exact absurd h (by simp)
  · rw [if_neg hp] at h
    exact absurd h (by simp)

theorem mk_ne_empty (a : Char) (t : List Char) : String.mk (a :: t) ≠ "" := by
  intro h
  have hd : (String.mk (a :: t)).data = ("" : String).data := congrArg String.data h
  exact List.cons_ne_nil a t hd

theorem scanSegs_code_inv :
    ∀ (fuel : Nat) (acc cs : List Char) (l c : String),
      Segment.code l c ∈ scanSegs fuel acc cs → l ≠ "" ∧ jsTrim c = c := by
  intro fuel
  induction fuel with
  | zero =>
    intro acc cs l c h
    exact absurd h (code_not_mem_flushText _ _ _)
  | succ n ih =>
    intro acc cs l c h
    cases cs with
    | nil => exact absurd h (code_not_mem_flushText _ _ _)
    | cons ch cs' =>
      rw [scanSegs] at h
      cases hm : matchFenceAt (ch :: cs') with
      | none =>
        rw [hm] at h
        exact ih _ _ _ _ h
      | some triple =>
        obtain ⟨run, body, rest⟩ := triple
        rw [hm] at h
        cases run with
        | none =>
          rcases List.mem_append.mp h with h1 | h2
          · exact absurd h1 (code_not_mem_flushText _ _ _)
          · rcases List.mem_cons.mp h2 with h3 | h4
            · injection h3 with hl hc
              refine ⟨?_, ?_⟩
              · rw [hl]; decide
              · rw [hc]; exact jsTrim_idem _
            · exact ih _ _ _ _ h4
        | some r =>
          rcases List.mem_append.mp h with h1 | h2
          · exact absurd h1 (code_not_mem_flushText _ _ _)
          · rcases List.mem_cons.mp h2 with h3 | h4
            · injection h3 with hl hc
              refine ⟨?_, ?_⟩
              · rw [hl]
                cases hr : r with
                | nil =>
                  rw [hr] at hm
                  exact absurd rfl (matchFenceAt_lang_ne_nil _ _ _ _ hm)
                | cons a t => exact mk_ne_empty a t
              · rw [hc]; exact jsTrim_idem _
            · exact ih _ _ _ _ h4

theorem scanSegs_noFence :
    ∀ (fuel : Nat) (acc cs : List Char), hasFence cs = false →
      scanSegs fuel acc cs = flushText (acc.reverse ++ cs) := by
  intro fuel
  induction fuel with
  | zero => intro acc cs _; rfl
  | succ n ih =>
    intro acc cs h
    cases cs with
    | nil => rw [scanSegs, List.append_nil]
    | cons ch cs' =>
      rw [hasFence] at h
      rw [Bool.or_eq_false_iff] at h
      obtain ⟨h1, h2⟩ := h
      rw [scanSegs]
      cases hm : matchFenceAt (ch :: cs') with
      | none =>
        rw [ih (ch :: acc) cs' h2]
        rw [List.reverse_cons, List.append_assoc]
        rfl
      | some triple =>
        rw [hm] at h1
        exact absurd h1 (by simp)

theorem mk_data_eq (s : String) : String.mk s.data = s := by
  cases s
  rfl

theorem str_append_empty (s : String) : s ++ "" = s := by
  cases s with
  | mk d => exact congrArg String.mk (List.append_nil d)

theorem jsonContentStep_messages (st : ConsumerState) (data : List Char) :
    (jsonContentStep st data).messages = st.messages := by
  unfold jsonContentStep
  split <;> rfl

theorem processLines_messages (lines : List (List Char)) :
    ∀ st : ConsumerState,
      (lines.any isDoneLine = true ∧
        ∃ s, (processLines st lines).messages = st.messages ++ [⟨Role.assistant, s⟩]) ∨
      (lines.any isDoneLine = false ∧ (processLines st lines).messages = st.messages) := by
  induction lines with
  | nil => intro st; exact Or.inr ⟨rfl, rfl⟩
  | cons line rest ih =>
    intro st
    rw [List.any_cons]
    by_cases hp : ("data: ".data.isPrefixOf line) = true
    · by_cases hd : line.drop 6 = "[DONE]".data
      · have hdl : isDoneLine line = true := by
          unfold isDoneLine
          rw [hp, hd]
          simp
        rw [hdl]
        refine Or.inl ⟨by simp, st.accumulatedContent, ?_⟩
        rw [processLines, if_pos hp, if_pos hd]
      · have hdl : isDoneLine line = false := by
          unfold isDoneLine
          rw [hp]
          simp [hd]
        rw [hdl, processLines, if_pos hp, if_neg hd, Bool.false_or]
        rcases ih (jsonContentStep st (line.drop 6)) with ⟨h1, s, h2⟩ | ⟨h1, h2⟩
        · exact Or.inl ⟨h1, s, by rw [h2, jsonContentStep_messages]⟩
        · exact Or.inr ⟨h1, by rw [h2, jsonContentStep_messages]⟩
    · have hdl : isDoneLine line = false := by
        unfold isDoneLine
        simp [hp]
      rw [hdl, processLines, if_neg hp, Bool.false_or]
      exact ih st

theorem runConsumer_cons (st : ConsumerState) (c : List Nat) (cs : List (List Nat)) :
    runConsumer st (c :: cs) = runConsumer (processChunk st c) cs := rfl

theorem runConsumer_messages (chunks : List (List Nat)) :
    ∀ st : ConsumerState, ∃ fins : List String,
      (runConsumer st chunks).messages
          = st.messages ++ fins.map (fun s => ⟨Role.assistant, s⟩) ∧
      fins.length = (chunks.filter chunkHasDone).length := by
  induction chunks with
  | nil => intro st; exact ⟨[], by rw [List.map_nil, List.append_nil]; rfl, by simp⟩
  | cons c cs ih =>
    intro st
    rw [runConsumer_cons]
    obtain ⟨fins', h1, h2⟩ := ih (processChunk st c)
    rcases processLines_messages (splitFrames (utf8DecodeJs c) []) st with
      ⟨hdone, s, hmsg⟩ | ⟨hdone, hmsg⟩
    · refine ⟨s :: fins', ?_, ?_⟩
      · rw [h1]
        show _ = st.messages ++ (⟨Role.assistant, s⟩ :: fins'.map (fun s => ⟨Role.assistant, s⟩))
        rw [show (processChunk st c).messages = st.messages ++ [⟨Role.assistant, s⟩] from hmsg]
        simp
      · rw [List.filter_cons, if_pos (by exact hdone), List.length_cons, h2]
        rfl
    · refine ⟨fins', ?_, ?_⟩
      · rw [h1, show (processChunk st c).messages = st.messages from hmsg]
      · rw [List.filter_cons, if_neg (by rw [show chunkHasDone c = (splitFrames (utf8DecodeJs c) []).any isDoneLine from rfl, hdone]; simp), h2]

theorem relayContentFrames_foldl (provider : List ProviderChunk) :
    ∀ acc : List String,
      provider.foldl (fun acc ch => acc ++ [frameFor ch]) acc = acc ++ provider.map frameFor := by
  induction provider with
  | nil => intro acc; simp
  | cons ch chs ih =>
    intro acc
    rw [List.foldl_cons, List.map_cons, ih (acc ++ [frameFor ch])]
    simp

theorem processLines_cons (st : ConsumerState) (line : List Char) (rest : List (List Char)) :
    processLines st (line :: rest)
      = if "data: ".data.isPrefixOf line then
          if line.drop 6 = "[DONE]".data then
            { st with
              isTyping := false
              messages := st.messages ++ [⟨Role.assistant, st.accumulatedContent⟩]
              currentTypingMessage := "" }
          else processLines (jsonContentStep st (line.drop 6)) rest
        else processLines st rest := rfl

theorem jsonContentStep_of_parse_fail (st : ConsumerState) (data : List Char)
    (h : jsonParse data = none) : jsonContentStep st data = st := by
  unfold jsonContentStep
  rw [h]

/-! ### Claim theorems -/

/-- C1: the claim states that for the frame sequence `"Hello"`, `" world"`,
`"!"` plus the sentinel, *every* partition of the SSE byte stream into read
chunks finalizes the message `"Hello world!"`.  The code splits each decoded
chunk on `\n\n` separately, with no carry-over buffer, so a frame cut by a
chunk boundary is lost: its first half fails `JSON.parse` and its second
half lacks the `data: ` prefix.  On the partition that cuts the `"!"` frame
after its two leading bytes, the finalized message is `"Hello world"`; the
aligned partition of the very same frames yields `"Hello world!"`. -/
theorem C1_chunk_partition_drops_split_frame :
    (runConsumer consumerInit
        [utf8Encode ("data: " ++ stringifyContentObj "Hello" ++ "\n\ndata: "
            ++ stringifyContentObj " world" ++ "\n\nda"),
         utf8Encode ("ta: " ++ stringifyContentObj "!" ++ "\n\ndata: [DONE]\n\n")]).messages
        = [⟨Role.assistant, "Hello world"⟩]
    ∧ (runConsumer consumerInit
        [utf8Encode ("data: " ++ stringifyContentObj "Hello" ++ "\n\ndata: "
            ++ stringifyContentObj " world" ++ "\n\ndata: "
            ++ stringifyContentObj "!" ++ "\n\ndata: [DONE]\n\n")]).messages
        = [⟨Role.assistant, "Hello world!"⟩]
    ∧ ("Hello world" : String) ≠ "Hello world!" :=
  ⟨by decide, by decide, by decide⟩

/-- C2: the claim states that a multi-byte UTF-8 character split across two
reads decodes correctly once both chunks are consumed.  The code calls
`new TextDecoder().decode(value)` — a fresh, non-streaming decoder per
chunk — so each half of the split character decodes to U+FFFD; the
concatenation is two replacement characters, not the character.  Decoding
the same two bytes in one read yields `é`, and running the full consumer
on a stream whose `é` frame is split at the character boundary finalizes
`""` instead of `"é"`. -/
theorem C2_split_multibyte_decodes_to_replacement :
    utf8Encode "é" = [0xC3, 0xA9]
    ∧ String.mk (utf8DecodeJs [0xC3] ++ utf8DecodeJs [0xA9]) = "��"
    ∧ String.mk (utf8DecodeJs [0xC3, 0xA9]) = "é"
    ∧ ("��" : String) ≠ "é"
    ∧ (runConsumer consumerInit
        [utf8Encode "data: \x7b\"content\":\"" ++ [0xC3],
         [0xA9] ++ utf8Encode "\"\x7d\n\ndata: [DONE]\n\n"]).messages
        = [⟨Role.assistant, ""⟩] :=
  ⟨by decide, by decide, by decide, by decide, by decide⟩

/-- C3 counterexample: the claim states that on the `[DONE]` sentinel the
consumer clears the accumulator and terminates reading the response body,
with no further reads after the sentinel.  In the code the `break` exits
only the inner `for` loop over the current chunk's lines, and
`accumulatedContent` is never reset.  Feeding a sentinel-bearing chunk
followed by one more chunk: the second chunk is still read and processed
(the accumulator grows from `"A"` to `"AB"` and the typing text is set to
`"AB"`), refuting both the termination and the clearing. -/
theorem C3_reads_continue_after_sentinel :
    (runConsumer consumerInit
        [utf8Encode ("data: " ++ stringifyContentObj "A" ++ "\n\ndata: [DONE]\n\n"),
         utf8Encode ("data: " ++ stringifyContentObj "B" ++ "\n\n")]).accumulatedContent = "AB"
    ∧ (runConsumer consumerInit
        [utf8Encode ("data: " ++ stringifyContentObj "A" ++ "\n\ndata: [DONE]\n\n")]).accumulatedContent
        = "A"
    ∧ (runConsumer consumerInit
        [utf8Encode ("data: " ++ stringifyContentObj "A" ++ "\n\ndata: [DONE]\n\n"),
         utf8Encode ("data: " ++ stringifyContentObj "B" ++ "\n\n")]).currentTypingMessage = "AB"
    ∧ ("AB" : String) ≠ "A" ∧ ("AB" : String) ≠ "" :=
  ⟨by decide, by decide, by decide, by decide, by decide⟩

/-- C3 (amended): when the consumer meets a sentinel frame it appends the
current accumulator to the history as a finalized assistant message, stops
the typing indicator, clears the *displayed* typing message (the
accumulator variable keeps its value), and stops processing only the
remaining lines of the current chunk; the outer read loop is not
terminated — the next chunk is processed exactly as if the loop had just
been entered with the post-sentinel state. -/
theorem C3_sentinel_finalizes_current_chunk :
    (∀ (st : ConsumerState) (pre post : List (List Char)),
      (∀ l ∈ pre, isDoneLine l = false) →
      processLines st (pre ++ "data: [DONE]".data :: post)
        = { messages := (processLines st pre).messages
              ++ [⟨Role.assistant, (processLines st pre).accumulatedContent⟩]
            isTyping := false
            currentTypingMessage := ""
            accumulatedContent := (processLines st pre).accumulatedContent })
    ∧ (∀ (st : ConsumerState) (c : List Nat) (cs : List (List Nat)),
        runConsumer st (c :: cs) = runConsumer (processChunk st c) cs) := by
  constructor
  · intro st pre post h
    induction pre generalizing st with
    | nil =>
      rw [List.nil_append, processLines_cons, if_pos (by decide), if_pos (by decide)]
      rfl
    | cons l pre' ih =>
      have hl : isDoneLine l = false := h l (List.mem_cons_self l pre')
      have h' : ∀ x ∈ pre', isDoneLine x = false := fun x hx => h x (List.mem_cons_of_mem l hx)
      rw [List.cons_append, processLines_cons]
      by_cases hp : ("data: ".data.isPrefixOf l) = true
      · have hd : ¬(l.drop 6 = "[DONE]".data) := by
          intro hdd
          unfold isDoneLine at hl
          rw [hp, hdd] at hl
          simp at hl
        rw [if_pos hp, if_neg hd, ih (jsonContentStep st (l.drop 6)) h',
          show processLines st (l :: pre') = processLines (jsonContentStep st (l.drop 6)) pre' from by
            rw [processLines_cons, if_pos hp, if_neg hd]]
      · rw [if_neg hp, ih st h',
          show processLines st (l :: pre') = processLines st pre' from by
            rw [processLines_cons, if_neg hp]]
  · exact fun st c cs => rfl

/-- C3 witness for the amended theorem: one content frame before the
sentinel, one stray line after it inside the same chunk. -/
theorem C3_sentinel_finalizes_current_chunk_witness :
    processLines consumerInit
        ["data: \x7b\"content\":\"A\"\x7d".data, "data: [DONE]".data, "ignored".data]
      = { messages := (processLines consumerInit ["data: \x7b\"content\":\"A\"\x7d".data]).messages
            ++ [⟨Role.assistant,
                  (processLines consumerInit ["data: \x7b\"content\":\"A\"\x7d".data]).accumulatedContent⟩]
          isTyping := false
          currentTypingMessage := ""
          accumulatedContent :=
            (processLines consumerInit ["data: \x7b\"content\":\"A\"\x7d".data]).accumulatedContent } :=
  C3_sentinel_finalizes_current_chunk.1 consumerInit
    ["data: \x7b\"content\":\"A\"\x7d".data] ["ignored".data] (by decide)

/-- C4: a frame whose `data: ` payload fails `JSON.parse` is skipped by the
`catch` that only logs: the accumulator is untouched and the remaining
frames are processed exactly as if the malformed frame were absent —
deleting it from the line sequence gives the identical final state.  The
concrete run shows a garbage frame followed by a valid `"ok"` frame and
the sentinel finalizing `"ok"`. -/
theorem C4_malformed_frame_skipped :
    (∀ (st : ConsumerState) (pre post : List (List Char)) (bad : List Char),
      ("data: ".data.isPrefixOf bad) = true →
      bad.drop 6 ≠ "[DONE]".data →
      jsonParse (bad.drop 6) = none →
      processLines st (pre ++ bad :: post) = processLines st (pre ++ post))
    ∧ (runConsumer consumerInit
        [utf8Encode ("data: \x7bgarbage\n\ndata: "
            ++ stringifyContentObj "ok" ++ "\n\ndata: [DONE]\n\n")]).messages
        = [⟨Role.assistant, "ok"⟩] := by
  constructor
  · intro st pre post bad h1 h2 h3
    induction pre generalizing st with
    | nil =>
      rw [List.nil_append, List.nil_append, processLines_cons, if_pos h1, if_neg h2,
        jsonContentStep_of_parse_fail st (bad.drop 6) h3]
    | cons l pre' ih =>
      rw [List.cons_append, List.cons_append, processLines_cons, processLines_cons]
      by_cases hp : ("data: ".data.isPrefixOf l) = true
      · by_cases hd : l.drop 6 = "[DONE]".data
        · rw [if_pos hp, if_pos hd, if_pos hp, if_pos hd]
        · rw [if_pos hp, if_neg hd, if_pos hp, if_neg hd]
          exact ih (jsonContentStep st (l.drop 6))
      · rw [if_neg hp, if_neg hp]
        exact ih st
  · decide

/-- C4 witness: a single malformed frame is a no-op on the line level. -/
theorem C4_malformed_frame_skipped_witness :
    processLines consumerInit ["data: \x7bnope".data, "data: \x7b\"content\":\"z\"\x7d".data]
      = processLines consumerInit ["data: \x7b\"content\":\"z\"\x7d".data] :=
  C4_malformed_frame_skipped.1 consumerInit [] ["data: \x7b\"content\":\"z\"\x7d".data]
    "data: \x7bnope".data (by decide) (by decide) (by rfl)

/-- C5: for a POST whose `messages` is a non-empty array with at least one
entry surviving the blank-content filter, the relay calls the provider
with exactly the fixed system instruction followed by the filtered entries
in their original relative order — `filter` keeps order and drops exactly
the entries whose `content` is not a non-blank string — and nothing else. -/
theorem C5_relay_forwards_filtered_messages (msgs : List Json) (provider : List ProviderChunk)
    (h1 : msgs.isEmpty = false) (h2 : (msgs.filter validEntry).isEmpty = false) :
    handler "POST" (Json.obj [("messages", Json.arr msgs)]) provider
      = RelayResult.streamed (systemMessageJson :: msgs.filter validEntry)
          (relayFrames provider) := by
  have hg : jsGetField (Json.obj [("messages", Json.arr msgs)]) "messages"
      = some (Json.arr msgs) := by
    show List.foldl (fun acc kv => if kv.1 = "messages" then some kv.2 else acc) none
        [("messages", Json.arr msgs)] = some (Json.arr msgs)
    rw [List.foldl_cons, List.foldl_nil, if_pos rfl]
  unfold handler
  rw [if_neg (fun hne => hne rfl),
    if_neg (show ¬(isNullJson (Json.obj [("messages", Json.arr msgs)]) = true) from
      fun h => Bool.false_ne_true h), hg]
  show (if msgs.isEmpty = true then _ else _) = _
  rw [if_neg (by rw [h1]; exact Bool.false_ne_true),
    if_neg (by rw [h2]; exact Bool.false_ne_true)]

/-- C5 witness: a one-message conversation with non-blank content. -/
theorem C5_relay_forwards_filtered_messages_witness :
    handler "POST"
        (Json.obj [("messages", Json.arr [Json.obj [("role", Json.str "user"), ("content", Json.str "hi")]])]) []
      = RelayResult.streamed
          (systemMessageJson ::
            [Json.obj [("role", Json.str "user"), ("content", Json.str "hi")]].filter validEntry)
          (relayFrames []) :=
  C5_relay_forwards_filtered_messages
    [Json.obj [("role", Json.str "user"), ("content", Json.str "hi")]] [] (by rfl) (by rfl)

/-- C6 counterexample: the claim asserts a structured error payload for
*every* request whose `messages` field is not a non-empty array.  A
request whose JSON body is the literal `null` is such a request (it has
no `messages` field at all), yet `const \x7b messages \x7d = req.body`
throws a `TypeError` *outside* the `try`, so the route crashes and the
framework answers with its generic, unstructured 500 — not with either
structured payload. -/
theorem C6_null_body_crashes_unstructured :
    messagesNonEmptyArray Json.null = false
    ∧ handler "POST" Json.null [] = RelayResult.crashed
    ∧ RelayResult.crashed ≠ RelayResult.errorResponse 500 "服务器错误: 消息数组无效或为空"
    ∧ RelayResult.crashed ≠ RelayResult.errorResponse 500 "服务器错误: 没有有效的消息内容" :=
  ⟨rfl, rfl, fun h => RelayResult.noConfusion h, fun h => RelayResult.noConfusion h⟩

/-- C6 (amended): a POST whose body is not the JSON value `null` and whose
`messages` field is not a non-empty array is rejected with status 500 and
the structured payload of the first validation error; a non-empty array
whose entries are all filtered out (missing or blank content) is rejected
with the second.  A `null` body instead crashes the route (the
destructuring sits outside the `try`), yielding the framework's generic
unstructured 500.  All three rejections happen before the provider call:
the result carries no provider data and is literally independent of
whatever the provider would have streamed. -/
theorem C6_invalid_request_rejected_without_provider_call :
    (∀ (body : Json) (p1 p2 : List ProviderChunk),
      isNullJson body = false →
      messagesNonEmptyArray body = false →
      handler "POST" body p1 = RelayResult.errorResponse 500 "服务器错误: 消息数组无效或为空"
      ∧ handler "POST" body p1 = handler "POST" body p2)
    ∧ (∀ (msgs : List Json) (p1 p2 : List ProviderChunk),
      msgs.isEmpty = false →
      (msgs.filter validEntry).isEmpty = true →
      handler "POST" (Json.obj [("messages", Json.arr msgs)]) p1
        = RelayResult.errorResponse 500 "服务器错误: 没有有效的消息内容"
      ∧ handler "POST" (Json.obj [("messages", Json.arr msgs)]) p1
        = handler "POST" (Json.obj [("messages", Json.arr msgs)]) p2)
    ∧ (∀ (p1 p2 : List ProviderChunk),
      handler "POST" Json.null p1 = RelayResult.crashed
      ∧ handler "POST" Json.null p1 = handler "POST" Json.null p2) := by
  refine ⟨?_, ?_, fun p1 p2 => ⟨rfl, rfl⟩⟩
  · intro body p1 p2 hn h
    have key : ∀ p : List ProviderChunk,
        handler "POST" body p = RelayResult.errorResponse 500 "服务器错误: 消息数组无效或为空" := by
      intro p
      unfold handler
      rw [if_neg (fun hne => hne rfl), if_neg (by rw [hn]; exact Bool.false_ne_true)]
      unfold messagesNonEmptyArray at h
      cases hg : jsGetField body "messages" with
      | none => rfl
      | some v =>
        rw [hg] at h
        cases v with
        | arr msgs =>
          have h' : (!msgs.isEmpty) = false := h
          have hempty : msgs.isEmpty = true := by
            cases he : msgs.isEmpty with
            | true => rfl
            | false => rw [he] at h'; exact absurd h' (by decide)
          show (if msgs.isEmpty = true then _ else _) = _
          rw [if_pos hempty]
        | null => rfl
        | bool b => rfl
        | num lex => rfl
        | str s => rfl
        | obj fields => rfl
    exact ⟨key p1, by rw [key p1, key p2]⟩
  · intro msgs p1 p2 h1 h2
    have hg : jsGetField (Json.obj [("messages", Json.arr msgs)]) "messages"
        = some (Json.arr msgs) := by
      show List.foldl (fun acc kv => if kv.1 = "messages" then some kv.2 else acc) none
          [("messages", Json.arr msgs)] = some (Json.arr msgs)
      rw [List.foldl_cons, List.foldl_nil, if_pos rfl]
    have key : ∀ p : List ProviderChunk,
        handler "POST" (Json.obj [("messages", Json.arr msgs)]) p
          = RelayResult.errorResponse 500 "服务器错误: 没有有效的消息内容" := by
      intro p
      unfold handler
      rw [if_neg (fun hne => hne rfl),
        if_neg (show ¬(isNullJson (Json.obj [("messages", Json.arr msgs)]) = true) from
          fun h => Bool.false_ne_true h), hg]
      show (if msgs.isEmpty = true then _ else _) = _
      rw [if_neg (by rw [h1]; exact Bool.false_ne_true), if_pos h2]
    exact ⟨key p1, by rw [key p1, key p2]⟩

/-- C6 witness: a body with no `messages` field, and a conversation whose
single message is all blanks. -/
theorem C6_invalid_request_rejected_without_provider_call_witness :
    (handler "POST" (Json.obj []) []
        = RelayResult.errorResponse 500 "服务器错误: 消息数组无效或为空"
      ∧ handler "POST" (Json.obj []) [] = handler "POST" (Json.obj []) [⟨[]⟩])
    ∧ (handler "POST" (Json.obj [("messages", Json.arr [Json.obj [("content", Json.str "  ")]])]) []
        = RelayResult.errorResponse 500 "服务器错误: 没有有效的消息内容"
      ∧ handler "POST" (Json.obj [("messages", Json.arr [Json.obj [("content", Json.str "  ")]])]) []
        = handler "POST" (Json.obj [("messages", Json.arr [Json.obj [("content", Json.str "  ")]])]) [⟨[]⟩]) :=
  ⟨C6_invalid_request_rejected_without_provider_call.1 (Json.obj []) [] [⟨[]⟩] (by rfl) (by rfl),
   C6_invalid_request_rejected_without_provider_call.2.1
     [Json.obj [("content", Json.str "  ")]] [] [⟨[]⟩] (by rfl) (by rfl)⟩

/-- C7: on `"before ```js\ncode\n``` after"` the extractor yields exactly
`[TextSpan "before ", CodeBlockRef "js" "code", TextSpan " after"]`; a
fence with no language tag gets the default `plaintext`; and in general
every emitted `CodeBlockRef` has a non-empty language and a body on which
`trim` is a fixed point (i.e. the body was trimmed). -/
theorem C7_extractor_segments :
    extract "before ```js\ncode\n``` after"
        = [Segment.text "before ", Segment.code "js" "code", Segment.text " after"]
    ∧ extract "x ```\ncode\n``` y"
        = [Segment.text "x ", Segment.code "plaintext" "code", Segment.text " y"]
    ∧ extract "```js\n  code  \n```" = [Segment.code "js" "code"]
    ∧ ∀ (content l c : String),
        Segment.code l c ∈ extract content → l ≠ "" ∧ jsTrim c = c := by
  refine ⟨by decide, by decide, by decide, ?_⟩
  intro content l c h
  exact scanSegs_code_inv _ _ _ l c h

/-- C7 witness: the membership hypothesis discharged on the spec's own
example. -/
theorem C7_extractor_segments_witness :
    ("js" : String) ≠ "" ∧ jsTrim "code" = "code" :=
  C7_extractor_segments.2.2.2 "before ```js\ncode\n``` after" "js" "code" (by decide)

/-- C8 counterexample: the claim quantifies over *every* content string
ending in an unterminated fence (an opening triple backtick with no later
closing one) and asserts the result is a single `TextSpan` equal to the
whole input.  A string that also contains an earlier *complete* fence ends
in an unterminated fence, yet the extractor still emits a `CodeBlockRef`
for the complete one, so the output is not a single `TextSpan`. -/
theorem C8_earlier_fence_still_extracted :
    extract "```a\nb``` ```c\nd" = [Segment.code "a" "b", Segment.text " ```c\nd"]
    ∧ [Segment.code "a" "b", Segment.text " ```c\nd"]
        ≠ [Segment.text "```a\nb``` ```c\nd"] :=
  ⟨by decide, by decide⟩

/-- C8 (amended): for every non-empty content string in which the fence
pattern has no match at any position — in particular a string whose only
fence is an unterminated trailing one, such as the spec's
`"before ```js\ncode"` — the extractor yields a single `TextSpan` equal to
the whole input and emits no `CodeBlockRef`.  (When an earlier complete
fence exists it is still extracted; only the unterminated trailing fence
is rendered as plain text, inside the final `TextSpan`.) -/
theorem C8_no_fence_single_text_span :
    (∀ s : String, s.data ≠ [] → hasFence s.data = false → extract s = [Segment.text s])
    ∧ extract "before ```js\ncode" = [Segment.text "before ```js\ncode"] := by
  refine ⟨?_, by decide⟩
  intro s hne hf
  unfold extract
  rw [scanSegs_noFence _ [] s.data hf]
  unfold flushText
  rw [List.reverse_nil, List.nil_append]
  have hie : s.data.isEmpty = false := by
    cases hd : s.data with
    | nil => exact absurd hd hne
    | cons a t => rfl
  rw [if_neg (by rw [hie]; exact Bool.false_ne_true)]

/-- C8 witness: the spec's unterminated-fence example satisfies both
hypotheses of the amended statement. -/
theorem C8_no_fence_single_text_span_witness :
    extract "before ```js\ncode" = [Segment.text "before ```js\ncode"] :=
  C8_no_fence_single_text_span.1 "before ```js\ncode" (by decide) (by decide)

/-- C9: over any sequence of read chunks, the history of the final state
is the initial history plus one finalized assistant message per
sentinel-bearing chunk (the snapshot of the accumulator at that sentinel),
and nothing else — in particular a stream with no sentinel appends
nothing, so the in-flight accumulator is never in the history mid-stream;
and the `catch` path appends exactly the synthetic assistant error
bubble. -/
theorem C9_history_only_finalized_messages :
    (∀ (st : ConsumerState) (chunks : List (List Nat)), ∃ fins : List String,
      (runConsumer st chunks).messages
          = st.messages ++ fins.map (fun s => ⟨Role.assistant, s⟩)
      ∧ fins.length = (chunks.filter chunkHasDone).length)
    ∧ (∀ (st : ConsumerState) (errMsg : String),
      (handleError st errMsg).messages = st.messages ++ [⟨Role.assistant, "错误: " ++ errMsg⟩]) :=
  ⟨fun st chunks => runConsumer_messages chunks st, fun _ _ => rfl⟩

/-- C10: the relay writes exactly one SSE frame per provider chunk (plus
the final sentinel), a chunk with no delta content becomes the literal
empty-content frame, and consuming that frame changes nothing but the
displayed typing text, which is re-set to the unchanged accumulator — an
end-to-end no-op on the accumulated message and the history. -/
theorem C10_empty_content_frame_noop :
    (∀ provider : List ProviderChunk,
      relayContentFrames provider = provider.map frameFor
      ∧ (relayContentFrames provider).length = provider.length
      ∧ relayFrames provider = provider.map frameFor ++ ["data: [DONE]\n\n"])
    ∧ (∀ ch : ProviderChunk, contentOf ch = none →
        frameFor ch = "data: \x7b\"content\":\"\"\x7d\n\n")
    ∧ (∀ st : ConsumerState,
        processLines st ["data: \x7b\"content\":\"\"\x7d".data]
          = { st with currentTypingMessage := st.accumulatedContent }) := by
  refine ⟨?_, ?_, ?_⟩
  · intro provider
    refine ⟨?_, ?_, ?_⟩
    · show provider.foldl (fun acc ch => acc ++ [frameFor ch]) [] = provider.map frameFor
      rw [relayContentFrames_foldl provider [], List.nil_append]
    · show (relayContentFrames provider).length = provider.length
      rw [show relayContentFrames provider = provider.map frameFor from by
        rw [show relayContentFrames provider
            = provider.foldl (fun acc ch => acc ++ [frameFor ch]) [] from rfl,
          relayContentFrames_foldl provider [], List.nil_append]]
      exact List.length_map _ _
    · show relayContentFrames provider ++ ["data: [DONE]\n\n"] = _
      rw [show relayContentFrames provider
          = provider.foldl (fun acc ch => acc ++ [frameFor ch]) [] from rfl,
        relayContentFrames_foldl provider [], List.nil_append]
  · intro ch h
    unfold frameFor
    rw [h]
    decide
  · intro st
    show { st with
          accumulatedContent := st.accumulatedContent ++ ""
          currentTypingMessage := st.accumulatedContent ++ "" }
        = { st with currentTypingMessage := st.accumulatedContent }
    rw [str_append_empty]

/-- C10 witness: a provider chunk with no choices resolves to no content
and yields the empty-content frame; consuming it from the initial state
only refreshes the typing text. -/
theorem C10_empty_content_frame_noop_witness :
    frameFor ⟨[]⟩ = "data: \x7b\"content\":\"\"\x7d\n\n"
    ∧ processLines consumerInit ["data: \x7b\"content\":\"\"\x7d".data]
        = { consumerInit with currentTypingMessage := consumerInit.accumulatedContent } :=
  ⟨C10_empty_content_frame_noop.2.1 ⟨[]⟩ rfl,
   C10_empty_content_frame_noop.2.2 consumerInit⟩
